import Mathlib

/-
  Verification development for the secure-clipboard-manager repository.

  Shallow embedding of the persistence and intelligence pipeline:
  the encryption envelope (src/storage/encryption.rs), the text
  classifier and sensitive-data detector (src/storage/processor.rs),
  the SQLite store (src/storage/database.rs), the fuzzy search layer
  (src/storage/search.rs) and the consumer task glue (src/main.rs).

  Modelling conventions:
  - Rust strings are modelled at character granularity (List Char /
    String); `str::len` is modelled as the character count.
  - Byte buffers (Vec<u8>) are modelled as List Nat.
  - SQLite tables are modelled as Lean lists of rows; AUTOINCREMENT
    primary keys are modelled by explicit next-id counters on the
    store state.  A single SQL statement is atomic; sequences of
    statements outside a transaction are modelled step by step.
  - The external ChaCha20-Poly1305 cipher (chacha20poly1305 crate) is
    an abstract parameter: a pair of functions standing for
    cipher.encrypt / cipher.decrypt at a fixed key.
  - The external skim fuzzy matcher (fuzzy_matcher crate) is an
    abstract parameter of the search function; a concrete
    case-insensitive subsequence model is provided for witnesses.
-/

namespace ClipVault

/-! ### Crypto envelope (src/storage/encryption.rs) -/

/-- Nonce size in bytes for ChaCha20-Poly1305 (`NONCE_SIZE` in
src/storage/encryption.rs, 96 bits). -/
def NONCE_SIZE : Nat := 12

/-- Model of `Encryptor::encrypt` (src/storage/encryption.rs:70-88).
The AEAD core `encAead` (the chacha20poly1305 crate's
`cipher.encrypt(nonce, plaintext)` at the loaded key) is an abstract
parameter; the freshly drawn random nonce is an explicit argument.
The result envelope is `nonce ++ ciphertext`. -/
def encrypt (encAead : List Nat → List Nat → Option (List Nat))
    (nonce plaintext : List Nat) : Except String (List Nat) :=
  match encAead nonce plaintext with
  | some c => Except.ok (nonce ++ c)
  | none => Except.error "Encryption failed"

/-- Model of `Encryptor::decrypt` (src/storage/encryption.rs:91-107).
Inputs shorter than the nonce are rejected with the distinct
"too short" error before the AEAD core `decAead` is consulted;
otherwise the envelope is split at `NONCE_SIZE` and handed to the
cipher, whose authentication failure maps to "Decryption failed". -/
def decrypt (decAead : List Nat → List Nat → Option (List Nat))
    (encrypted : List Nat) : Except String (List Nat) :=
  if encrypted.length < NONCE_SIZE then
    Except.error "Invalid encrypted data: too short"
  else
    match decAead (encrypted.take NONCE_SIZE) (encrypted.drop NONCE_SIZE) with
    | some p => Except.ok p
    | none => Except.error "Decryption failed"

/-! ### Text processing (src/storage/processor.rs) -/

/-- Whitespace predicate used by the model of Rust's `char::is_whitespace`
and `str::trim` (restricted to the ASCII whitespace characters). -/
def isWs (c : Char) : Bool := c == ' ' || c == '\t' || c == '\r' || c == '\n'

/-- Leading-whitespace removal, one half of Rust's `str::trim`. -/
def trimStart (t : List Char) : List Char := t.dropWhile isWs

/-- Trailing-whitespace removal, the other half of Rust's `str::trim`. -/
def trimEnd (t : List Char) : List Char := (t.reverse.dropWhile isWs).reverse

/-- Model of Rust's `str::trim`. -/
def trim (t : List Char) : List Char := trimEnd (trimStart t)

/-- Model of Rust's `str::lines`: split on the newline character.
The carriage-return stripping done by `lines` is subsumed by the
per-line `trim` applied right after every use in the source. -/
def splitLines : List Char → List (List Char)
  | [] => [[]]
  | c :: cs =>
    if c = '\n' then [] :: splitLines cs
    else
      match splitLines cs with
      | [] => [[c]]
      | p :: ps => (c :: p) :: ps

/-- Helper for reasoning about `splitLines` on appended input: append a
character to the last piece. -/
def appendToLast (c : Char) : List (List Char) → List (List Char)
  | [] => [[c]]
  | [p] => [p ++ [c]]
  | p :: q :: qs => p :: appendToLast c (q :: qs)

/-- The per-line pipeline of `generate_text_preview`
(src/storage/processor.rs:127-131): split into lines, trim each line,
drop the blank ones. -/
def normalizePieces (t : List Char) : List (List Char) :=
  ((splitLines t).map trim).filter fun l => !l.isEmpty

/-- Model of `join(" ")` (src/storage/processor.rs:132). -/
def joinSpace (ps : List (List Char)) : List Char := List.intercalate [' '] ps

/-- Model of `DataProcessor::generate_text_preview`
(src/storage/processor.rs:124-139): the input is trimmed, split into
lines, each line trimmed, blank lines dropped, the rest joined with
single spaces; the result is truncated to 200 characters with a
trailing ellipsis when it is longer. -/
def generate_text_preview (t : List Char) : List Char :=
  let cleaned := joinSpace (normalizePieces (trim t))
  if cleaned.length ≤ 200 then cleaned
  else cleaned.take 200 ++ ['.', '.', '.']

/-- The normalization described by the spec's words (each line trimmed,
blank lines dropped, remaining lines joined with single spaces) — note
it has no outer trim, unlike the source; used to compare the source's
preview against the spec's description. -/
def specNormalize (t : List Char) : List Char := joinSpace (normalizePieces t)

/-- The special-character set of sensitive-detector pattern 1
(src/storage/processor.rs:150). -/
def specialChars : List Char := "!@#$%^&*()_+-=[]\x7b\x7d|;:,.<>?".data

/-- Substring test, model of Rust's `str::contains(&str)`. -/
def containsSub (needle : List Char) : List Char → Bool
  | [] => needle.isEmpty
  | c :: cs => needle.isPrefixOf (c :: cs) || containsSub needle cs

/-- Pattern 1 of `detect_sensitive_content`
(src/storage/processor.rs:147-152): length in [8,128], no space
character, at least one special character, at least one ASCII digit.
Note the source checks only for the space character `' '`, not for
all whitespace. -/
def passLike (t : List Char) : Bool :=
  decide (8 ≤ t.length) && decide (t.length ≤ 128) && !(t.contains ' ')
    && (t.any fun c => specialChars.contains c)
    && (t.any fun c => c.isDigit)

/-- The API-key and token starts of pattern 2
(src/storage/processor.rs:156-165). -/
def sensitiveStarts : List (List Char) :=
  ["sk-".data, "ghp_".data, "gho_".data, "github_pat_".data,
   "glpat-".data, "AKIA".data, "ya29.".data, "AIza".data]

/-- Pattern 2 of `detect_sensitive_content`: the text begins with one
of the known token starts (src/storage/processor.rs:167-171). -/
def hasSensitiveTokenStart (t : List Char) : Bool :=
  sensitiveStarts.any fun p => p.isPrefixOf t

/-- Pattern 3 of `detect_sensitive_content`: JWT-shaped text
(src/storage/processor.rs:174-176). -/
def jwtShaped (t : List Char) : Bool :=
  "eyJ".data.isPrefixOf t && t.count '.' == 2

/-- The private-key markers of pattern 4 (src/storage/processor.rs:179-182). -/
def privateKeyMarkers : List (List Char) :=
  ["BEGIN PRIVATE KEY".data, "BEGIN RSA PRIVATE KEY".data,
   "BEGIN OPENSSH PRIVATE KEY".data]

/-- Pattern 4 of `detect_sensitive_content`: the text contains a
private-key marker. -/
def hasPrivateKeyMarker (t : List Char) : Bool :=
  privateKeyMarkers.any fun m => containsSub m t

/-- The secret-keyword list of pattern 5 (src/storage/processor.rs:186-190). -/
def envKeywords : List (List Char) :=
  ["password".data, "secret".data, "api_key".data, "apikey".data, "token".data]

/-- Pattern 5 of `detect_sensitive_content`: the lowercased text
contains a secret keyword and the raw text contains an equals sign
(src/storage/processor.rs:186-193). -/
def envVarLike (t : List Char) : Bool :=
  (envKeywords.any fun k => containsSub k (t.map Char.toLower)) && t.contains '='

/-- Model of `DataProcessor::detect_sensitive_content`
(src/storage/processor.rs:142-196): the five patterns are tried in
order with early return. -/
def detect_sensitive_content (t : List Char) : Bool :=
  if passLike t then true
  else if hasSensitiveTokenStart t then true
  else if jwtShaped t then true
  else if hasPrivateKeyMarker t then true
  else if envVarLike t then true
  else false

/-- Rule 1 exactly as the spec words it: length in [8,128], contains
no whitespace of any kind, contains at least one digit, and contains
at least one special character. -/
def specRule1 (t : List Char) : Bool :=
  decide (8 ≤ t.length) && decide (t.length ≤ 128) && !(t.any isWs)
    && (t.any fun c => c.isDigit)
    && (t.any fun c => specialChars.contains c)

/-- The spec's five-rule disjunction for the sensitive-data detector,
with rule 1 taken literally ("contains no whitespace"). -/
def specSensitiveRules (t : List Char) : Bool :=
  specRule1 t || hasSensitiveTokenStart t || jwtShaped t
    || hasPrivateKeyMarker t || envVarLike t

/-- The five-rule disjunction with rule 1 amended to what the source
checks: no space character (rather than no whitespace of any kind). -/
def amendedSensitiveRules (t : List Char) : Bool :=
  passLike t || hasSensitiveTokenStart t || jwtShaped t
    || hasPrivateKeyMarker t || envVarLike t

/-! ### Store model (src/storage/database.rs) -/

/-- One row of the `clipboard_items` table (schema at
src/storage/database.rs:35-49, struct `ClipboardItem` at 434-447). -/
structure Item where
  id : Int
  timestamp : Int
  data_type : String
  is_sensitive : Bool
  is_encrypted : Bool
  preview_text : Option String
  data_size : Int
  data_blob_id : Int
  metadata : Option String
  copy_count : Int
deriving DecidableEq

/-- One row of the `clipboard_data` or `deleted_data` blob tables. -/
structure BlobRow where
  id : Int
  data : List Nat
deriving DecidableEq

/-- One row of the `deleted_items` trash table
(src/storage/database.rs:80-95). -/
structure DeletedItem where
  id : Int
  original_id : Int
  timestamp : Int
  deleted_at : Int
  data_type : String
  is_sensitive : Bool
  is_encrypted : Bool
  preview_text : Option String
  data_size : Int
  deleted_blob_id : Int
  metadata : Option String
deriving DecidableEq

/-- The database state: the four tables plus the AUTOINCREMENT
counters of their integer primary keys. -/
structure Store where
  items : List Item
  blobs : List BlobRow
  deletedItems : List DeletedItem
  deletedBlobs : List BlobRow
  nextItemId : Int
  nextBlobId : Int
  nextDeletedItemId : Int
  nextDeletedBlobId : Int
deriving DecidableEq

/-- A fresh database (AUTOINCREMENT ids start at 1). -/
def emptyStore : Store := ⟨[], [], [], [], 1, 1, 1, 1⟩

/-- Model of `Database::store_blob` (src/storage/database.rs:152-158):
one INSERT into `clipboard_data`, returning `last_insert_rowid`. -/
def store_blob (st : Store) (data : List Nat) : Store × Int :=
  ({ st with blobs := st.blobs ++ [⟨st.nextBlobId, data⟩],
             nextBlobId := st.nextBlobId + 1 }, st.nextBlobId)

/-- Model of `Database::store_item` (src/storage/database.rs:174-203):
one INSERT into `clipboard_items`, returning `last_insert_rowid`. -/
def store_item (st : Store) (timestamp : Int) (data_type : String)
    (sens enc : Bool) (preview_text : Option String) (data_size : Int)
    (data_blob_id : Int) (metadata : Option String) (copy_count : Int) :
    Store × Int :=
  ({ st with
      items := st.items ++
        [⟨st.nextItemId, timestamp, data_type, sens, enc, preview_text,
          data_size, data_blob_id, metadata, copy_count⟩],
      nextItemId := st.nextItemId + 1 }, st.nextItemId)

/-- SELECT of a blob row by id (`SELECT data FROM ... WHERE id = ?1`);
`none` models `query_row` failing because no row matched. -/
def lookupBlob (bs : List BlobRow) (bid : Int) : Option (List Nat) :=
  match bs.find? fun b => b.id == bid with
  | some b => some b.data
  | none => none

/-- Model of `Database::get_blob` (src/storage/database.rs:161-171). -/
def get_blob (st : Store) (bid : Int) : Option (List Nat) :=
  lookupBlob st.blobs bid

/-- Model of `Database::count_items` (src/storage/database.rs:407-414). -/
def count_items (st : Store) : Nat := st.items.length

/-- The WHERE clause of the dedup SELECT
(`preview_text = ?1 AND data_type = ?2`,
src/storage/database.rs:371-374).  A row whose `preview_text` is NULL
never satisfies an SQL equality, which the option equality mirrors. -/
def matchPred (p : String) (dt : String) (it : Item) : Bool :=
  it.preview_text == some p && it.data_type == dt

/-- Model of Rust's `Iterator::max().unwrap_or(0)` over `i64`. -/
def maxInt : List Int → Int
  | [] => 0
  | c :: cs => cs.foldl max c

/-- Model of `Database::remove_duplicates`
(src/storage/database.rs:364-404): early return `(0, 0)` when
`preview_text` is NULL; otherwise the matching rows are collected,
their maximal `copy_count` is taken, and the matching items and their
blobs are deleted (one DELETE statement per row, no transaction).
Returns `((removed_count, max_copy_count), new_state)`. -/
def remove_duplicates (st : Store) (preview_text : Option String)
    (data_type : String) : (Nat × Int) × Store :=
  match preview_text with
  | none => ((0, 0), st)
  | some p =>
    let dupRows := st.items.filter (matchPred p data_type)
    if dupRows.isEmpty then ((0, 0), st)
    else
      let maxCopy := maxInt (dupRows.map Item.copy_count)
      let itemIds := dupRows.map Item.id
      let blobIds := dupRows.map Item.data_blob_id
      ((dupRows.length, maxCopy),
       { st with
          items := st.items.filter fun it => !(itemIds.contains it.id),
          blobs := st.blobs.filter fun b => !(blobIds.contains b.id) })

/-- The per-item loop body of `Database::soft_delete_all_items`
(src/storage/database.rs:295-317): for each live item, read its blob
(failing the whole transaction if it is missing), copy the bytes into
`deleted_data`, and append the mirrored row to `deleted_items`. -/
def softDeleteLoop (blobs : List BlobRow) (now : Int) :
    List Item → List BlobRow → Int → List DeletedItem → Int →
    Option (List BlobRow × Int × List DeletedItem × Int)
  | [], dBlobs, nextDB, dItems, nextDI => some (dBlobs, nextDB, dItems, nextDI)
  | it :: rest, dBlobs, nextDB, dItems, nextDI =>
    match lookupBlob blobs it.data_blob_id with
    | none => none
    | some bytes =>
      softDeleteLoop blobs now rest
        (dBlobs ++ [⟨nextDB, bytes⟩]) (nextDB + 1)
        (dItems ++
          [⟨nextDI, it.id, it.timestamp, now, it.data_type, it.is_sensitive,
            it.is_encrypted, it.preview_text, it.data_size, nextDB,
            it.metadata⟩]) (nextDI + 1)

/-- Model of `Database::soft_delete_all_items`
(src/storage/database.rs:269-329): inside one transaction every live
(item, blob) pair is copied into the trash tables with
`deleted_at = now`, then the live tables are cleared; `none` models
the rollback taken when some blob read fails.  Returns the new state
and the number of items moved. -/
def soft_delete_all_items (st : Store) (now : Int) : Option (Store × Nat) :=
  match softDeleteLoop st.blobs now st.items st.deletedBlobs
      st.nextDeletedBlobId st.deletedItems st.nextDeletedItemId with
  | none => none
  | some (dB, nDB, dI, nDI) =>
    some
      ({ st with
          items := [],
          blobs := st.blobs.filter fun b =>
            !((st.items.map Item.data_blob_id).contains b.id),
          deletedBlobs := dB, nextDeletedBlobId := nDB,
          deletedItems := dI, nextDeletedItemId := nDI },
       st.items.length)

/-- The consumer task's store sequence (src/main.rs:185-211):
`store_blob` then `store_item`, two separate statements with no
transaction.  `blobOk` and `itemOk` inject statement failures: a
failed statement applies nothing, and on `store_blob` failure the
item write is never attempted (the `Err` arm only logs). -/
def consumerInsert (st : Store) (timestamp : Int) (data_type : String)
    (sens enc : Bool) (preview_text : Option String) (blobData : List Nat)
    (metadata : Option String) (copy_count : Int) (blobOk itemOk : Bool) :
    Store :=
  if blobOk then
    let r := store_blob st blobData
    if itemOk then
      (store_item r.1 timestamp data_type sens enc preview_text
        (Int.ofNat blobData.length) r.2 metadata copy_count).1
    else r.1
  else st

/-- Invariant 2 of the spec's data model: no blob row is unreferenced
by an item row, and no deleted-blob row is unreferenced by a
deleted-item row. -/
def noOrphans (st : Store) : Prop :=
  (∀ b ∈ st.blobs, ∃ it ∈ st.items, it.data_blob_id = b.id)
  ∧ (∀ b ∈ st.deletedBlobs, ∃ d ∈ st.deletedItems, d.deleted_blob_id = b.id)

/-! ### Search (src/storage/search.rs) -/

/-- Subsequence test used by the modelled fuzzy matcher. -/
def isSubseq : List Char → List Char → Bool
  | [], _ => true
  | _ :: _, [] => false
  | q :: qs, c :: cs => if q == c then isSubseq qs cs else isSubseq (q :: qs) cs

/-- Modelled from the spec: the external skim matcher
(`SkimMatcherV2::fuzzy_match` of the fuzzy_matcher crate, not part of
src/) is modelled as a case-insensitive subsequence test, returning a
score when the query's characters appear in order inside the text.
The concrete score value is not specified by the spec and is modelled
as the query length. -/
def fuzzyMatch (text query : String) : Option Int :=
  if isSubseq (query.data.map Char.toLower) (text.data.map Char.toLower) then
    some (Int.ofNat query.length)
  else none

/-- The score a single item receives inside `SearchEngine::search`'s
`filter_map` closure (src/storage/search.rs:27-41): the preview text
is scored when present; when it is absent or its match fails, the
`data_type` field is scored; `none` excludes the item. -/
def scoreOf (fm : String → String → Option Int) (it : Item)
    (query : String) : Option Int :=
  match it.preview_text with
  | some preview =>
    match fm preview query with
    | some s => some s
    | none => fm it.data_type query
  | none => fm it.data_type query

/-- The sort order of src/storage/search.rs:45-47: score descending,
ties broken by timestamp descending. -/
def searchLe (a b : Int × Item) : Bool :=
  decide (b.1 < a.1) || (a.1 == b.1 && decide (b.2.timestamp ≤ a.2.timestamp))

/-- Model of `SearchEngine::search` (src/storage/search.rs:19-50),
parameterized by the fuzzy matcher `fm`: an empty query returns every
item with a neutral score in input order; otherwise items are scored
by the `filter_map` closure and sorted. -/
def search (fm : String → String → Option Int) (items : List Item)
    (query : String) : List (Int × Item) :=
  if query.isEmpty then items.map fun it => (0, it)
  else
    (items.filterMap fun it => (scoreOf fm it query).map fun s => (s, it)).mergeSort
      searchLe

/-! ### Image path and consumer glue (src/storage/processor.rs, src/main.rs) -/

/-- The `ProcessedDataType` enum (src/storage/processor.rs:7-14). -/
inductive ProcessedDataType where
  | PlainText
  | Rtf
  | Html
  | Image
  | File
  | Url
deriving DecidableEq

/-- Model of `ProcessedDataType::as_str` (src/storage/processor.rs:17-27). -/
def ProcessedDataType.as_str : ProcessedDataType → String
  | .PlainText => "text"
  | .Rtf => "rtf"
  | .Html => "html"
  | .Image => "image"
  | .File => "file"
  | .Url => "url"

/-- The `ProcessedData` struct (src/storage/processor.rs:29-35). -/
structure ProcessedData where
  data_type : ProcessedDataType
  blob : List Nat
  preview_text : Option String
  is_sensitive : Bool
  metadata : Option String
deriving DecidableEq

/-- The outcome of the external image crate's decode and PNG
re-encode: dimensions plus the PNG bytes (`image::load_from_memory`
and `convert_to_png`, which are not part of src/). -/
structure ImgDecoded where
  width : Nat
  height : Nat
  png : List Nat
deriving DecidableEq

/-- Model of `DataProcessor::detect_image_format`
(src/storage/processor.rs:199-213). -/
def detect_image_format (uti : String) : String :=
  if containsSub "tiff".data uti.data then "TIFF"
  else if containsSub "jpeg".data uti.data || containsSub "jpg".data uti.data then "JPEG"
  else if containsSub "png".data uti.data then "PNG"
  else if containsSub "gif".data uti.data then "GIF"
  else if containsSub "bmp".data uti.data then "BMP"
  else "Unknown"

/-- Model of `DataProcessor::process_image`
(src/storage/processor.rs:56-81): a decode failure is an error;
otherwise the blob is the PNG bytes, the preview is the synthetic
dimensions string, `is_sensitive` is the literal `false`, and the
metadata records dimensions and source format. -/
def process_image (decoded : Option ImgDecoded) (uti_type : String) :
    Except String ProcessedData :=
  match decoded with
  | none => Except.error "Failed to load image"
  | some img =>
    Except.ok
      { data_type := ProcessedDataType.Image
        blob := img.png
        preview_text :=
          some (toString img.width ++ "x" ++ toString img.height ++ " image")
        is_sensitive := false
        metadata :=
          some ("\x7b\"width\":" ++ toString img.width ++ ",\"height\":"
            ++ toString img.height ++ ",\"format\":\""
            ++ detect_image_format uti_type ++ "\"\x7d") }

/-- The consumer's encrypt-if-sensitive branch (src/main.rs:151-169):
only a sensitive payload is encrypted; on lock or encryption failure
the plaintext is kept with `is_encrypted = false`. -/
def encryptIfSensitive (pd : ProcessedData)
    (encResult : Except String (List Nat)) (lockOk : Bool) :
    List Nat × Bool :=
  if pd.is_sensitive then
    if lockOk then
      match encResult with
      | Except.ok e => (e, true)
      | Except.error _ => (pd.blob, false)
    else (pd.blob, false)
  else (pd.blob, false)

/-! ### Concrete inputs for witnesses and counterexamples -/

/-- A trivial AEAD encryption core (identity) that satisfies the
round-trip contract; used only to instantiate witnesses. -/
def idAeadEnc : List Nat → List Nat → Option (List Nat) := fun _ q => some q

/-- The matching trivial AEAD decryption core. -/
def idAeadDec : List Nat → List Nat → Option (List Nat) := fun _ c => some c

/-- A concrete 12-byte nonce. -/
def wNonce : List Nat := List.replicate 12 0

/-- A second, different concrete 12-byte nonce. -/
def wNonce2 : List Nat := 1 :: List.replicate 11 0

/-- Text containing a tab: the source's pattern 1 accepts it (no space
character) while the spec's rule 1 ("no whitespace") rejects it. -/
def exC6 : List Char := ['a', '\t', 'b', '1', '!', 'c', 'd', 'e']

/-- An input whose normalization already ends in an ellipsis without
being clipped. -/
def exC7 : List Char := ['x', '.', '.', '.']

/-- A live item for the dedup witness. -/
def c1Item : Item := ⟨1, 10, "text", false, false, some "note A", 6, 1, none, 1⟩

/-- A one-item store for the dedup witness. -/
def c1Store : Store := ⟨[c1Item], [⟨1, [0]⟩], [], [], 2, 2, 1, 1⟩

/-- A one-item store for the atomicity witness. -/
def c2Store : Store :=
  ⟨[⟨1, 5, "text", false, false, some "a", 1, 1, none, 1⟩],
   [⟨1, [9]⟩], [], [], 2, 2, 1, 1⟩

/-- A one-item store for the soft-delete witness. -/
def c8Store : Store :=
  ⟨[⟨1, 5, "text", false, false, some "a", 1, 1, none, 1⟩],
   [⟨1, [42]⟩], [], [], 2, 2, 1, 1⟩

/-- The state after soft-deleting everything in `c8Store` at time 99. -/
def c8Store' : Store :=
  ⟨[], [], [⟨1, 1, 5, 99, "text", false, false, some "a", 1, 1, none⟩],
   [⟨1, [42]⟩], 2, 2, 2, 2⟩

/-- An item whose preview does not match the query "text" but whose
`data_type` does. -/
def c9Item : Item := ⟨1, 100, "text", false, false, some "zzz", 3, 1, none, 1⟩

/-- An item whose preview matches the query "ell". -/
def c9bItem : Item := ⟨2, 50, "text", false, false, some "hello", 5, 2, none, 1⟩

/-- A concrete decoded image for the image-path witness. -/
def c10Img : ImgDecoded := ⟨100, 100, [137, 80, 78, 71]⟩

/-- The processed data `process_image` yields on `c10Img` with a TIFF
type tag. -/
def c10Pd : ProcessedData :=
  ⟨ProcessedDataType.Image, [137, 80, 78, 71], some "100x100 image", false,
   some "\x7b\"width\":100,\"height\":100,\"format\":\"TIFF\"\x7d"⟩

/-! ### Crypto envelope theorems -/

/-- C3: for every byte sequence p, decrypting the envelope produced by
encrypting p under the same key (the same AEAD core pair, assumed to
satisfy the AEAD round-trip contract) returns exactly p. -/
theorem C3_decrypt_encrypt_roundtrip
    (encAead decAead : List Nat → List Nat → Option (List Nat))
    (nonce p env : List Nat)
    (hnonce : nonce.length = NONCE_SIZE)
    (hA : ∀ n q c, encAead n q = some c → decAead n c = some q)
    (henc : encrypt encAead nonce p = Except.ok env) :
    decrypt decAead env = Except.ok p := by
  unfold encrypt at henc
  cases hc : encAead nonce p with
  | none => rw [hc] at henc; exact absurd henc (by simp)
  | some c =>
    rw [hc] at henc
    have henv : env = nonce ++ c := by
      cases henc
      rfl
    subst henv
    have hlen : ¬ (nonce ++ c).length < NONCE_SIZE := by
      rw [List.length_append, hnonce]
      omega
    unfold decrypt
    rw [if_neg hlen]
    have htake : (nonce ++ c).take NONCE_SIZE = nonce := by
      rw [← hnonce]
      exact List.take_left nonce c
    have hdrop : (nonce ++ c).drop NONCE_SIZE = c := by
      rw [← hnonce]
      exact List.drop_left nonce c
    rw [htake, hdrop, hA nonce p c hc]

/-- Witness for C3 at a concrete nonce and plaintext, with the trivial
AEAD core. -/
theorem C3_witness :
    decrypt idAeadDec (wNonce ++ [1, 2, 3]) = Except.ok [1, 2, 3] :=
  C3_decrypt_encrypt_roundtrip idAeadEnc idAeadDec wNonce [1, 2, 3]
    (wNonce ++ [1, 2, 3]) (by decide)
    (fun n q c h => by
      unfold idAeadEnc at h
      unfold idAeadDec
      cases h
      rfl)
    rfl

/-- C4: two encryptions of the same plaintext under the same key draw
different random nonces, hence produce distinct envelopes. -/
theorem C4_distinct_envelopes
    (encAead : List Nat → List Nat → Option (List Nat))
    (n1 n2 p e1 e2 : List Nat)
    (h1 : n1.length = NONCE_SIZE) (h2 : n2.length = NONCE_SIZE)
    (hne : n1 ≠ n2)
    (he1 : encrypt encAead n1 p = Except.ok e1)
    (he2 : encrypt encAead n2 p = Except.ok e2) :
    e1 ≠ e2 := by
  unfold encrypt at he1 he2
  cases hc1 : encAead n1 p with
  | none => rw [hc1] at he1; exact absurd he1 (by simp)
  | some c1 =>
    cases hc2 : encAead n2 p with
    | none => rw [hc2] at he2; exact absurd he2 (by simp)
    | some c2 =>
      rw [hc1] at he1
      rw [hc2] at he2
      have hv1 : e1 = n1 ++ c1 := by cases he1; rfl
      have hv2 : e2 = n2 ++ c2 := by cases he2; rfl
      subst hv1; subst hv2
      intro heq
      apply hne
      have := congrArg (List.take NONCE_SIZE) heq
      rwa [← h1, List.take_left n1 c1, h1, ← h2, List.take_left n2 c2] at this

/-- Witness for C4 at two distinct concrete nonces. -/
theorem C4_witness : wNonce ++ [5] ≠ wNonce2 ++ [5] :=
  C4_distinct_envelopes idAeadEnc wNonce wNonce2 [5] (wNonce ++ [5])
    (wNonce2 ++ [5]) (by decide) (by decide) (by decide) rfl rfl

/-- C5: every input shorter than 12 bytes is rejected by decrypt with
the distinct "envelope too short" error, for every AEAD core — so
authentication is never attempted. -/
theorem C5_short_envelope_error
    (decAead : List Nat → List Nat → Option (List Nat))
    (env : List Nat) (h : env.length < NONCE_SIZE) :
    decrypt decAead env = Except.error "Invalid encrypted data: too short" := by
  unfold decrypt
  rw [if_pos h]

/-- Witness for C5 on the empty envelope. -/
theorem C5_witness :
    decrypt idAeadDec [] = Except.error "Invalid encrypted data: too short" :=
  C5_short_envelope_error idAeadDec [] (by decide)

/-! ### Sensitive-data detector theorems -/

/-- Counterexample for C6: on a text containing a tab (and no space),
the detector fires while the spec's five rules, with rule 1 read
literally as "contains no whitespace of any kind", do not. -/
theorem C6_counterexample :
    detect_sensitive_content exC6 = true ∧ specSensitiveRules exC6 = false := by
  decide

/-- An if-then-else chain with early `true` returns is the disjunction
of its conditions. -/
theorem boolIfChain : ∀ a b c d e : Bool,
    (if a then true
     else if b then true
     else if c then true
     else if d then true
     else if e then true
     else false) = (a || b || c || d || e) := by
  decide

/-- C6 (amended): the detector returns true iff one of the five rules
holds, with rule 1's whitespace condition amended to what the source
checks — the text contains no space character (tabs and newlines are
not excluded). -/
theorem C6_detector_rules (t : List Char) :
    detect_sensitive_content t = amendedSensitiveRules t := by
  have h := boolIfChain (passLike t) (hasSensitiveTokenStart t) (jwtShaped t)
    (hasPrivateKeyMarker t) (envVarLike t)
  unfold detect_sensitive_content amendedSensitiveRules
  exact h

/-! ### Preview generation theorems -/

/-- The line splitter always yields at least one piece. -/
theorem splitLines_ne_nil (t : List Char) : splitLines t ≠ [] := by
  cases t with
  | nil => simp [splitLines]
  | cons c cs =>
    unfold splitLines
    by_cases h : c = '\n'
    · simp [h]
    · simp only [if_neg h]
      cases splitLines cs <;> simp

/-- Cons equation of the line splitter for a non-newline head. -/
theorem splitLines_cons_ne (d : Char) (cs : List Char) (hd : ¬ d = '\n')
    (p : List Char) (ps : List (List Char)) (hs : splitLines cs = p :: ps) :
    splitLines (d :: cs) = (d :: p) :: ps := by
  unfold splitLines
  rw [if_neg hd, hs]

/-- Cons equation of the line splitter for a newline head. -/
theorem splitLines_cons_nl (cs : List Char) :
    splitLines ('\n' :: cs) = [] :: splitLines cs := by
  cases cs <;> rfl

/-- Trimming the empty list gives the empty list. -/
theorem trim_nil : trim [] = [] := rfl

/-- Dropping a leading whitespace character commutes with trimStart. -/
theorem trimStart_cons_ws (c : Char) (p : List Char) (h : isWs c = true) :
    trimStart (c :: p) = trimStart p := by
  simp [trimStart, List.dropWhile_cons, h]

/-- Dropping a leading whitespace character commutes with trim. -/
theorem trim_cons_ws (c : Char) (p : List Char) (h : isWs c = true) :
    trim (c :: p) = trim p := by
  unfold trim
  rw [trimStart_cons_ws c p h]

/-- Dropping a trailing whitespace character commutes with trimEnd. -/
theorem trimEnd_append_ws (x : List Char) (c : Char) (h : isWs c = true) :
    trimEnd (x ++ [c]) = trimEnd x := by
  simp [trimEnd, List.dropWhile_cons, h]

/-- Dropping a trailing whitespace character commutes with trim. -/
theorem trim_append_ws (p : List Char) (c : Char) (h : isWs c = true) :
    trim (p ++ [c]) = trim p := by
  unfold trim
  by_cases hp : trimStart p = []
  · have h1 : trimStart (p ++ [c]) = [] := by
      unfold trimStart at hp ⊢
      induction p with
      | nil => simp [List.dropWhile_cons, h]
      | cons d ds ih =>
        by_cases hd : isWs d
        · rw [List.dropWhile_cons, if_pos hd] at hp
          rw [List.cons_append, List.dropWhile_cons, if_pos hd]
          exact ih hp
        · rw [List.dropWhile_cons, if_neg hd] at hp
          exact absurd hp (by simp)
    rw [hp, h1]
  · have h1 : trimStart (p ++ [c]) = trimStart p ++ [c] := by
      unfold trimStart at hp ⊢
      induction p with
      | nil => exact absurd rfl hp
      | cons d ds ih =>
        by_cases hd : isWs d
        · rw [List.dropWhile_cons, if_pos hd] at hp
          rw [List.cons_append, List.dropWhile_cons, if_pos hd,
            List.dropWhile_cons, if_pos hd]
          exact ih hp
        · rw [List.cons_append, List.dropWhile_cons, if_neg hd,
            List.dropWhile_cons, if_neg hd, List.cons_append]
    rw [h1, trimEnd_append_ws _ c h]

/-- Appending a newline to the input appends one blank line. -/
theorem splitLines_append_newline (u : List Char) :
    splitLines (u ++ ['\n']) = splitLines u ++ [[]] := by
  induction u with
  | nil => decide
  | cons d ds ih =>
    obtain ⟨p, ps, hs⟩ : ∃ p ps, splitLines ds = p :: ps := by
      cases hsp : splitLines ds with
      | nil => exact absurd hsp (splitLines_ne_nil ds)
      | cons p ps => exact ⟨p, ps, rfl⟩
    by_cases hd : d = '\n'
    · subst hd
      rw [List.cons_append, splitLines_cons_nl, ih, splitLines_cons_nl,
        List.cons_append]
    · have hs2 : splitLines (ds ++ ['\n']) = p :: (ps ++ [[]]) := by
        rw [ih, hs, List.cons_append]
      rw [List.cons_append, splitLines_cons_ne d _ hd p (ps ++ [[]]) hs2,
        splitLines_cons_ne d ds hd p ps hs, List.cons_append]

/-- Appending a non-newline character extends the last piece. -/
theorem splitLines_append_char (u : List Char) (c : Char) (hc : ¬ c = '\n') :
    splitLines (u ++ [c]) = appendToLast c (splitLines u) := by
  induction u with
  | nil =>
    show splitLines [c] = appendToLast c [[]]
    unfold splitLines
    rw [if_neg hc]
    rfl
  | cons d ds ih =>
    obtain ⟨p, ps, hs⟩ : ∃ p ps, splitLines ds = p :: ps := by
      cases hsp : splitLines ds with
      | nil => exact absurd hsp (splitLines_ne_nil ds)
      | cons p ps => exact ⟨p, ps, rfl⟩
    have hs2 : splitLines (ds ++ [c]) = appendToLast c (p :: ps) := by
      rw [ih, hs]
    by_cases hd : d = '\n'
    · subst hd
      rw [List.cons_append, splitLines_cons_nl, hs2, splitLines_cons_nl, hs]
      cases ps <;> rfl
    · cases ps with
      | nil =>
        rw [List.cons_append,
          splitLines_cons_ne d _ hd (p ++ [c]) [] (by rw [hs2]; rfl),
          splitLines_cons_ne d ds hd p [] hs]
        rfl
      | cons q qs =>
        rw [List.cons_append,
          splitLines_cons_ne d _ hd p (appendToLast c (q :: qs))
            (by rw [hs2]; rfl),
          splitLines_cons_ne d ds hd p (q :: qs) hs]
        rfl

/-- A trailing whitespace character does not change the trimmed pieces. -/
theorem map_trim_appendToLast (c : Char) (h : isWs c = true) :
    ∀ p ps, (appendToLast c (p :: ps)).map trim = ((p :: ps).map trim) := by
  intro p ps
  induction ps generalizing p with
  | nil => simp [appendToLast, trim_append_ws p c h]
  | cons q qs ih =>
    show (p :: appendToLast c (q :: qs)).map trim = _
    rw [List.map_cons, ih q, List.map_cons]
    rfl

/-- Appending a whitespace character to the input leaves the
normalized pieces unchanged. -/
theorem normalizePieces_append_ws (u : List Char) (c : Char) (h : isWs c = true) :
    normalizePieces (u ++ [c]) = normalizePieces u := by
  unfold normalizePieces
  by_cases hc : c = '\n'
  · subst hc
    rw [splitLines_append_newline, List.map_append, List.filter_append]
    simp [trim_nil]
  · obtain ⟨p, ps, hs⟩ : ∃ p ps, splitLines u = p :: ps := by
      cases hsp : splitLines u with
      | nil => exact absurd hsp (splitLines_ne_nil u)
      | cons p ps => exact ⟨p, ps, rfl⟩
    rw [splitLines_append_char u c hc, hs, map_trim_appendToLast c h p ps]

/-- Prepending a whitespace character to the input leaves the
normalized pieces unchanged. -/
theorem normalizePieces_cons_ws (c : Char) (t : List Char) (h : isWs c = true) :
    normalizePieces (c :: t) = normalizePieces t := by
  unfold normalizePieces
  by_cases hc : c = '\n'
  · subst hc
    rw [splitLines_cons_nl]
    simp [trim_nil]
  · obtain ⟨p, ps, hs⟩ : ∃ p ps, splitLines t = p :: ps := by
      cases hsp : splitLines t with
      | nil => exact absurd hsp (splitLines_ne_nil t)
      | cons p ps => exact ⟨p, ps, rfl⟩
    rw [splitLines_cons_ne c t hc p ps hs, hs, List.map_cons, List.map_cons,
      trim_cons_ws c p h]

/-- The outer trimStart of the source's preview pipeline is redundant. -/
theorem normalizePieces_trimStart (t : List Char) :
    normalizePieces (trimStart t) = normalizePieces t := by
  induction t with
  | nil => rfl
  | cons c cs ih =>
    by_cases h : isWs c
    · rw [trimStart_cons_ws c cs h, ih]
      exact (normalizePieces_cons_ws c cs h).symm
    · have e : trimStart (c :: cs) = c :: cs := by
        simp [trimStart, List.dropWhile_cons, h]
      rw [e]

/-- The outer trimEnd of the source's preview pipeline is redundant. -/
theorem normalizePieces_trimEnd (t : List Char) :
    normalizePieces (trimEnd t) = normalizePieces t := by
  have aux : ∀ r : List Char,
      normalizePieces ((r.dropWhile isWs).reverse) = normalizePieces r.reverse := by
    intro r
    induction r with
    | nil => rfl
    | cons c rs ih =>
      by_cases h : isWs c
      · have e : (c :: rs).dropWhile isWs = rs.dropWhile isWs := by
          simp [List.dropWhile_cons, h]
        rw [e, ih, List.reverse_cons]
        exact (normalizePieces_append_ws rs.reverse c h).symm
      · have e : (c :: rs).dropWhile isWs = c :: rs := by
          simp [List.dropWhile_cons, h]
        rw [e]
  have h2 := aux t.reverse
  rw [List.reverse_reverse] at h2
  unfold trimEnd
  exact h2

/-- The outer trim of the source's preview pipeline is redundant: the
normalized pieces of the trimmed input are those of the input. -/
theorem normalizePieces_trim (t : List Char) :
    normalizePieces (trim t) = normalizePieces t := by
  unfold trim
  rw [normalizePieces_trimEnd, normalizePieces_trimStart]

/-- Counterexample for C7: the input "x..." is not clipped (its
normalization has length 4 ≤ 200), yet its preview ends in "...", so
the preview does not end with "..." exactly when clipped. -/
theorem C7_counterexample :
    generate_text_preview exC7 = ['x'] ++ ['.', '.', '.']
    ∧ (specNormalize exC7).length ≤ 200 := by
  decide

/-- C7 (amended): the preview equals the spec's normalization when the
latter is at most 200 characters, and otherwise its first 200
characters followed by "..."; every preview has at most 203
characters; and a clipped preview ends with "..." (the converse fails,
see the counterexample). -/
theorem C7_preview_spec (t : List Char) :
    generate_text_preview t =
      (if (specNormalize t).length ≤ 200 then specNormalize t
       else (specNormalize t).take 200 ++ ['.', '.', '.'])
    ∧ (generate_text_preview t).length ≤ 203
    ∧ (200 < (specNormalize t).length →
        ∃ u, generate_text_preview t = u ++ ['.', '.', '.']) := by
  have e : joinSpace (normalizePieces (trim t)) = specNormalize t := by
    unfold specNormalize
    rw [normalizePieces_trim]
  have hkey : generate_text_preview t =
      (if (specNormalize t).length ≤ 200 then specNormalize t
       else (specNormalize t).take 200 ++ ['.', '.', '.']) := by
    simp only [generate_text_preview]
    rw [e]
  refine ⟨hkey, ?_, ?_⟩
  · rw [hkey]
    by_cases h : (specNormalize t).length ≤ 200
    · rw [if_pos h]
      omega
    · rw [if_neg h, List.length_append, List.length_take,
        Nat.min_eq_left (by omega : 200 ≤ (specNormalize t).length)]
      norm_num
  · intro h
    rw [hkey, if_neg (by omega)]
    exact ⟨(specNormalize t).take 200, rfl⟩

/-! ### Store theorems -/

/-- Boolean contains on integer lists agrees with membership. -/
theorem not_contains_of_not_mem (l : List Int) (x : Int) (h : ¬ x ∈ l) :
    (!(l.contains x)) = true := by
  simp [h]

/-- Folding max over a list bounds every element and lands in the list. -/
theorem foldl_max_spec (cs : List Int) : ∀ c : Int,
    c ≤ cs.foldl max c ∧ (∀ x ∈ cs, x ≤ cs.foldl max c)
      ∧ (cs.foldl max c = c ∨ cs.foldl max c ∈ cs) := by
  induction cs with
  | nil => intro c; exact ⟨le_refl c, by simp, Or.inl rfl⟩
  | cons d ds ih =>
    intro c
    obtain ⟨h1, h2, h3⟩ := ih (max c d)
    have hfold : (d :: ds).foldl max c = ds.foldl max (max c d) := rfl
    refine ⟨?_, ?_, ?_⟩
    · rw [hfold]
      exact le_trans (le_max_left c d) h1
    · intro x hx
      rw [hfold]
      rcases List.mem_cons.mp hx with rfl | hx'
      · exact le_trans (le_max_right c x) h1
      · exact h2 x hx'
    · rw [hfold]
      rcases h3 with h | h
      · rcases max_choice c d with hm | hm
        · left; rw [h, hm]
        · right; rw [h, hm]; exact List.mem_cons_self d ds
      · right; exact List.mem_cons_of_mem d h

/-- Every element of a list is at most its maximum. -/
theorem maxInt_ge (l : List Int) (x : Int) (hx : x ∈ l) : x ≤ maxInt l := by
  cases l with
  | nil => cases hx
  | cons c cs =>
    obtain ⟨h1, h2, _⟩ := foldl_max_spec cs c
    rcases List.mem_cons.mp hx with rfl | hx'
    · exact h1
    · exact h2 x hx'

/-- The maximum of a non-empty list is attained. -/
theorem maxInt_mem (l : List Int) (h : l ≠ []) : maxInt l ∈ l := by
  cases l with
  | nil => exact absurd rfl h
  | cons c cs =>
    obtain ⟨_, _, h3⟩ := foldl_max_spec cs c
    show cs.foldl max c ∈ c :: cs
    rcases h3 with h' | h'
    · rw [h']; exact List.mem_cons_self c cs
    · exact List.mem_cons_of_mem c h'

/-- C1: dedupe on a NULL preview returns (0, 0) and leaves the store
unchanged; on a non-null preview no live item with the given
(preview_text, data_type) pair survives, the returned count is the
number of live items that matched, and the returned maximum is the
maximal copy_count among the matched items (0 when none matched, in
which case the store is also unchanged). -/
theorem C1_remove_duplicates_spec (st : Store) (p : String) (dt : String) :
    remove_duplicates st none dt = ((0, 0), st)
    ∧ (remove_duplicates st (some p) dt).2.items.filter (matchPred p dt) = []
    ∧ (remove_duplicates st (some p) dt).1.1
        = (st.items.filter (matchPred p dt)).length
    ∧ (∀ it ∈ st.items, matchPred p dt it = true →
        it.copy_count ≤ (remove_duplicates st (some p) dt).1.2)
    ∧ (st.items.filter (matchPred p dt) ≠ [] →
        ∃ it ∈ st.items, matchPred p dt it = true
          ∧ it.copy_count = (remove_duplicates st (some p) dt).1.2)
    ∧ (st.items.filter (matchPred p dt) = [] →
        remove_duplicates st (some p) dt = ((0, 0), st)) := by
  by_cases hM : (st.items.filter (matchPred p dt)).isEmpty
  · have hMnil : st.items.filter (matchPred p dt) = [] := List.isEmpty_iff.mp hM
    have hred : remove_duplicates st (some p) dt = ((0, 0), st) := by
      simp only [remove_duplicates]
      rw [if_pos hM]
    refine ⟨rfl, ?_, ?_, ?_, ?_, fun _ => hred⟩
    · rw [hred]; exact hMnil
    · rw [hred, hMnil]; rfl
    · intro it hit hmatch
      have hmem : it ∈ st.items.filter (matchPred p dt) :=
        List.mem_filter.mpr ⟨hit, hmatch⟩
      rw [hMnil] at hmem
      cases hmem
    · intro hne; exact absurd hMnil hne
  · have hred : remove_duplicates st (some p) dt =
        (((st.items.filter (matchPred p dt)).length,
          maxInt ((st.items.filter (matchPred p dt)).map Item.copy_count)),
         { st with
            items := st.items.filter fun it =>
              !(((st.items.filter (matchPred p dt)).map Item.id).contains it.id),
            blobs := st.blobs.filter fun b =>
              !(((st.items.filter (matchPred p dt)).map Item.data_blob_id).contains b.id) }) := by
      simp only [remove_duplicates]
      rw [if_neg hM]
    refine ⟨rfl, ?_, ?_, ?_, ?_, ?_⟩
    · rw [hred]
      apply List.filter_eq_nil_iff.mpr
      intro it hit hmatch
      obtain ⟨hmem, hnotin⟩ := List.mem_filter.mp hit
      have hin : it ∈ st.items.filter (matchPred p dt) :=
        List.mem_filter.mpr ⟨hmem, hmatch⟩
      have hid : it.id ∈ (st.items.filter (matchPred p dt)).map Item.id :=
        List.mem_map_of_mem _ hin
      simp [hid] at hnotin
    · rw [hred]
    · intro it hit hmatch
      rw [hred]
      exact maxInt_ge _ _
        (List.mem_map_of_mem _ (List.mem_filter.mpr ⟨hit, hmatch⟩))
    · intro hne
      rw [hred]
      have hmapne : (st.items.filter (matchPred p dt)).map Item.copy_count ≠ [] := by
        intro hmap
        exact hne (List.map_eq_nil_iff.mp hmap)
      obtain ⟨it, hitM, hcc⟩ := List.mem_map.mp (maxInt_mem _ hmapne)
      obtain ⟨hmem, hmatch⟩ := List.mem_filter.mp hitM
      exact ⟨it, hmem, hmatch, hcc⟩
    · intro h0
      exact absurd (by rw [h0]; rfl : (st.items.filter (matchPred p dt)).isEmpty = true) hM

/-- Witness for C1 on a concrete one-item store. -/
theorem C1_witness :
    remove_duplicates c1Store none "text" = ((0, 0), c1Store)
    ∧ c1Item.copy_count ≤ (remove_duplicates c1Store (some "note A") "text").1.2 := by
  have h := C1_remove_duplicates_spec c1Store "note A" "text"
  exact ⟨h.1, h.2.2.2.1 c1Item (by decide) (by decide)⟩

/-- Counterexample for C2: with the item-row write failing right after
the blob write succeeded, the consumer's insert sequence leaves the
store changed — a blob row exists that no item row references (there
is no enclosing transaction to roll it back). -/
theorem C2_counterexample :
    consumerInsert emptyStore 0 "text" false false (some "x") [1, 2, 3] none 1
        true false ≠ emptyStore
    ∧ ∃ b ∈ (consumerInsert emptyStore 0 "text" false false (some "x")
        [1, 2, 3] none 1 true false).blobs,
        ∀ it ∈ (consumerInsert emptyStore 0 "text" false false (some "x")
          [1, 2, 3] none 1 true false).items,
          it.data_blob_id ≠ b.id := by
  decide

/-- C2 (amended): the consumer's insert and the dedupe run as
individual statements, not in one transaction, so a mid-sequence
failure can leave partial state; but a failed blob write leaves the
store unchanged, and a fully successful insert or dedupe preserves
the no-orphan-blob invariant (given distinct item ids). -/
theorem C2_success_noOrphans (st : Store) (ts : Int) (dt : String)
    (sens enc : Bool) (pv : Option String) (blobData : List Nat)
    (md : Option String) (cc : Int) (pt : Option String)
    (hids : (st.items.map Item.id).Nodup) (hno : noOrphans st) :
    consumerInsert st ts dt sens enc pv blobData md cc false false = st
    ∧ noOrphans (consumerInsert st ts dt sens enc pv blobData md cc true true)
    ∧ noOrphans (remove_duplicates st pt dt).2 := by
  obtain ⟨hb, hd⟩ := hno
  refine ⟨rfl, ?_, ?_⟩
  · have hstate : consumerInsert st ts dt sens enc pv blobData md cc true true =
        { st with
            items := st.items ++
              [⟨st.nextItemId, ts, dt, sens, enc, pv,
                Int.ofNat blobData.length, st.nextBlobId, md, cc⟩],
            nextItemId := st.nextItemId + 1,
            blobs := st.blobs ++ [⟨st.nextBlobId, blobData⟩],
            nextBlobId := st.nextBlobId + 1 } := rfl
    rw [hstate]
    refine ⟨?_, hd⟩
    intro b hbm
    rcases List.mem_append.mp hbm with hold | hnew
    · obtain ⟨it, hi, he⟩ := hb b hold
      exact ⟨it, List.mem_append_left _ hi, he⟩
    · rcases List.mem_singleton.mp hnew with rfl
      exact ⟨⟨st.nextItemId, ts, dt, sens, enc, pv,
          Int.ofNat blobData.length, st.nextBlobId, md, cc⟩,
        List.mem_append_right _ (List.mem_singleton.mpr rfl), rfl⟩
  · cases pt with
    | none => exact ⟨hb, hd⟩
    | some p =>
      by_cases hM : (st.items.filter (matchPred p dt)).isEmpty
      · have hunch : (remove_duplicates st (some p) dt).2 = st := by
          simp only [remove_duplicates]
          rw [if_pos hM]
        rw [hunch]
        exact ⟨hb, hd⟩
      · have hred : (remove_duplicates st (some p) dt).2 =
            { st with
                items := st.items.filter fun it =>
                  !(((st.items.filter (matchPred p dt)).map Item.id).contains it.id),
                blobs := st.blobs.filter fun b =>
                  !(((st.items.filter (matchPred p dt)).map Item.data_blob_id).contains b.id) } := by
          simp only [remove_duplicates]
          rw [if_neg hM]
        rw [hred]
        refine ⟨?_, hd⟩
        intro b hbm
        obtain ⟨hbmem, hbnotin⟩ := List.mem_filter.mp hbm
        obtain ⟨it, hitmem, hitref⟩ := hb b hbmem
        refine ⟨it, List.mem_filter.mpr ⟨hitmem, ?_⟩, hitref⟩
        have hnotid : ¬ it.id ∈ (st.items.filter (matchPred p dt)).map Item.id := by
          intro hidin
          obtain ⟨m, hmM, hmid⟩ := List.mem_map.mp hidin
          obtain ⟨hmmem, _⟩ := List.mem_filter.mp hmM
          have hmeq : m = it := List.inj_on_of_nodup_map hids hmmem hitmem hmid
          subst hmeq
          have hbid : b.id ∈ (st.items.filter (matchPred p dt)).map Item.data_blob_id := by
            rw [← hitref]
            exact List.mem_map_of_mem _ hmM
          simp [hbid] at hbnotin
        exact not_contains_of_not_mem _ _ hnotid

/-- Witness for C2 on a concrete one-item store. -/
theorem C2_witness :
    noOrphans (consumerInsert c2Store 6 "text" false false (some "b") [7] none 1
      true true)
    ∧ noOrphans (remove_duplicates c2Store (some "a") "text").2 := by
  have h := C2_success_noOrphans c2Store 6 "text" false false (some "b") [7]
    none 1 (some "a") (by decide) ⟨by decide, by decide⟩
  exact ⟨h.2.1, h.2.2⟩

/-- Invariant of the soft-delete loop: the trash tables only grow, the
new deleted-blob ids are fresh, and each processed item gains a
mirrored trash row whose deleted-blob row carries the original bytes. -/
theorem softDeleteLoop_spec (blobs : List BlobRow) (now : Int) :
    ∀ (items : List Item) (dBlobs : List BlobRow) (nextDB : Int)
      (dItems : List DeletedItem) (nextDI : Int)
      (out : List BlobRow × Int × List DeletedItem × Int),
      (∀ b ∈ dBlobs, b.id < nextDB) →
      softDeleteLoop blobs now items dBlobs nextDB dItems nextDI = some out →
      ∃ newBlobs : List BlobRow, ∃ newRows : List DeletedItem,
        out.1 = dBlobs ++ newBlobs
        ∧ (∀ b ∈ newBlobs, nextDB ≤ b.id)
        ∧ (∀ b ∈ out.1, b.id < out.2.1)
        ∧ out.2.2.1 = dItems ++ newRows
        ∧ newRows.length = items.length
        ∧ (∀ pr ∈ items.zip newRows,
            pr.2.original_id = pr.1.id
            ∧ pr.2.timestamp = pr.1.timestamp
            ∧ pr.2.deleted_at = now
            ∧ pr.2.data_type = pr.1.data_type
            ∧ pr.2.is_sensitive = pr.1.is_sensitive
            ∧ pr.2.is_encrypted = pr.1.is_encrypted
            ∧ pr.2.preview_text = pr.1.preview_text
            ∧ pr.2.data_size = pr.1.data_size
            ∧ pr.2.metadata = pr.1.metadata
            ∧ lookupBlob out.1 pr.2.deleted_blob_id
                = lookupBlob blobs pr.1.data_blob_id) := by
  intro items
  induction items with
  | nil =>
    intro dBlobs nextDB dItems nextDI out hinv hloop
    simp only [softDeleteLoop] at hloop
    cases hloop
    exact ⟨[], [], by simp, by simp, hinv, by simp, rfl, by simp⟩
  | cons it rest ih =>
    intro dBlobs nextDB dItems nextDI out hinv hloop
    simp only [softDeleteLoop] at hloop
    cases hbl : lookupBlob blobs it.data_blob_id with
    | none => rw [hbl] at hloop; cases hloop
    | some bytes =>
      rw [hbl] at hloop
      have hinv' : ∀ b ∈ dBlobs ++ [⟨nextDB, bytes⟩], b.id < nextDB + 1 := by
        intro b hbm
        rcases List.mem_append.mp hbm with h | h
        · have := hinv b h; omega
        · rcases List.mem_singleton.mp h with rfl
          show nextDB < nextDB + 1
          omega
      obtain ⟨nb, nr, ho1, hge, hlt, ho2, hlen, hzip⟩ :=
        ih _ _ _ _ _ hinv' hloop
      refine ⟨⟨nextDB, bytes⟩ :: nb, ⟨nextDI, it.id, it.timestamp, now,
          it.data_type, it.is_sensitive, it.is_encrypted, it.preview_text,
          it.data_size, nextDB, it.metadata⟩ :: nr, ?_, ?_, hlt, ?_, ?_, ?_⟩
      · rw [ho1]
        simp [List.append_assoc]
      · intro b hbm
        rcases List.mem_cons.mp hbm with rfl | hbm'
        · exact le_refl nextDB
        · have := hge b hbm'
          omega
      · rw [ho2]
        simp [List.append_assoc]
      · simp [hlen]
      · intro pr hpr
        rcases List.mem_cons.mp hpr with rfl | hpr'
        · refine ⟨rfl, rfl, rfl, rfl, rfl, rfl, rfl, rfl, rfl, ?_⟩
          rw [hbl, ho1]
          show lookupBlob ((dBlobs ++ [⟨nextDB, bytes⟩]) ++ nb) nextDB = some bytes
          unfold lookupBlob
          rw [List.find?_append, List.find?_append]
          have h1 : dBlobs.find? (fun b => b.id == nextDB) = none := by
            apply List.find?_eq_none.mpr
            intro b hbm
            have := hinv b hbm
            simp only [beq_iff_eq]
            omega
          have h2 : [(⟨nextDB, bytes⟩ : BlobRow)].find?
              (fun b => b.id == nextDB) = some ⟨nextDB, bytes⟩ := by
            simp [List.find?]
          rw [h1, h2, Option.none_or]
          rfl
        · exact hzip pr hpr'

/-- C8: a successful soft_delete_all on a store with n live items
returns n, empties the live table, and appends to the trash exactly n
rows, each mirroring the original item's fields with its original id
as `original_id`, `deleted_at = now`, and a freshly copied deleted
blob carrying the original blob's bytes. -/
theorem C8_soft_delete_spec (st : Store) (now : Int) (st' : Store) (n : Nat)
    (hwf : ∀ b ∈ st.deletedBlobs, b.id < st.nextDeletedBlobId)
    (h : soft_delete_all_items st now = some (st', n)) :
    n = st.items.length
    ∧ count_items st' = 0
    ∧ st'.deletedItems.length = st.deletedItems.length + st.items.length
    ∧ ∃ newRows : List DeletedItem,
        st'.deletedItems = st.deletedItems ++ newRows
        ∧ newRows.length = st.items.length
        ∧ ∀ pr ∈ st.items.zip newRows,
            pr.2.original_id = pr.1.id
            ∧ pr.2.timestamp = pr.1.timestamp
            ∧ pr.2.deleted_at = now
            ∧ pr.2.data_type = pr.1.data_type
            ∧ pr.2.is_sensitive = pr.1.is_sensitive
            ∧ pr.2.is_encrypted = pr.1.is_encrypted
            ∧ pr.2.preview_text = pr.1.preview_text
            ∧ pr.2.data_size = pr.1.data_size
            ∧ pr.2.metadata = pr.1.metadata
            ∧ lookupBlob st'.deletedBlobs pr.2.deleted_blob_id
                = lookupBlob st.blobs pr.1.data_blob_id := by
  unfold soft_delete_all_items at h
  cases hl : softDeleteLoop st.blobs now st.items st.deletedBlobs
      st.nextDeletedBlobId st.deletedItems st.nextDeletedItemId with
  | none => rw [hl] at h; cases h
  | some out =>
    rw [hl] at h
    obtain ⟨dB, nDB, dI, nDI⟩ := out
    cases h
    obtain ⟨nb, nr, ho1, hge, hlt, ho2, hlen, hzip⟩ :=
      softDeleteLoop_spec st.blobs now st.items st.deletedBlobs
        st.nextDeletedBlobId st.deletedItems st.nextDeletedItemId
        (dB, nDB, dI, nDI) hwf hl
    have ho2' : dI = st.deletedItems ++ nr := ho2
    refine ⟨rfl, rfl, ?_, nr, ho2', hlen, ?_⟩
    · show dI.length = st.deletedItems.length + st.items.length
      rw [ho2', List.length_append, hlen]
    · intro pr hpr
      exact hzip pr hpr

/-- Witness for C8 on a concrete one-item store. -/
theorem C8_witness :
    count_items c8Store' = 0 ∧ c8Store'.deletedItems.length = 1 := by
  have h := C8_soft_delete_spec c8Store 99 c8Store' 1 (by decide) (by decide)
  exact ⟨h.2.1, by rw [h.2.2.1]; rfl⟩

/-! ### Search theorems -/

/-- Counterexample for C9: an item whose preview text is present but
does not match the query is still returned, scored by its data_type —
the preview-match failure does not exclude the item and data_type is
not used only when the preview is absent. -/
theorem C9_counterexample :
    c9Item.preview_text = some "zzz"
    ∧ fuzzyMatch "zzz" "text" = none
    ∧ search fuzzyMatch [c9Item] "text" = [(4, c9Item)] := by
  refine ⟨rfl, by decide, ?_⟩
  unfold search
  rw [if_neg (by decide : ¬ ("text".isEmpty = true))]
  rw [show ([c9Item].filterMap fun it =>
      (scoreOf fuzzyMatch it "text").map fun s => (s, it)) = [(4, c9Item)]
    from by decide]
  exact List.mergeSort_singleton ..

/-- C9 (amended): for a non-empty query, an item's score is computed
against preview_text when present, falling back to data_type when the
preview is absent or its match fails; an item appears in the results
iff this scoring yields a match, and with exactly that score. -/
theorem C9_search_scoring (fm : String → String → Option Int)
    (items : List Item) (query : String) (hq : query.isEmpty = false)
    (it : Item) :
    ((∃ s : Int, (s, it) ∈ search fm items query) ↔
      (it ∈ items ∧ scoreOf fm it query ≠ none))
    ∧ (∀ s : Int, (s, it) ∈ search fm items query →
        scoreOf fm it query = some s) := by
  have hmem : ∀ s : Int, ((s, it) ∈ search fm items query ↔
      (s, it) ∈ items.filterMap fun a =>
        (scoreOf fm a query).map fun v => (v, a)) := by
    intro s
    unfold search
    rw [if_neg (by rw [hq]; simp)]
    exact List.mem_mergeSort
  constructor
  · constructor
    · rintro ⟨s, hs⟩
      rw [hmem s] at hs
      obtain ⟨a, ha, hfa⟩ := List.mem_filterMap.mp hs
      obtain ⟨v, hv, hpair⟩ := Option.map_eq_some'.mp hfa
      cases hpair
      exact ⟨ha, by rw [hv]; simp⟩
    · rintro ⟨hin, hne⟩
      cases hsc : scoreOf fm it query with
      | none => exact absurd hsc hne
      | some s =>
        refine ⟨s, ?_⟩
        rw [hmem s]
        exact List.mem_filterMap.mpr ⟨it, hin, by rw [hsc]; rfl⟩
  · intro s hs
    rw [hmem s] at hs
    obtain ⟨a, ha, hfa⟩ := List.mem_filterMap.mp hs
    obtain ⟨v, hv, hpair⟩ := Option.map_eq_some'.mp hfa
    cases hpair
    exact hv

/-- Witness for C9 on a concrete item whose preview matches. -/
theorem C9_witness :
    ∃ s : Int, (s, c9bItem) ∈ search fuzzyMatch [c9bItem] "ell" := by
  have h := C9_search_scoring fuzzyMatch [c9bItem] "ell" rfl c9bItem
  exact h.1.mpr ⟨by decide, by decide⟩

/-! ### Image path theorems -/

/-- C10: every successfully processed image payload has
`is_sensitive = false`, so the consumer's encrypt-if-sensitive branch
stores it unencrypted with the plaintext PNG blob. -/
theorem C10_image_never_encrypted (decoded : Option ImgDecoded) (uti : String)
    (pd : ProcessedData) (encResult : Except String (List Nat)) (lockOk : Bool)
    (h : process_image decoded uti = Except.ok pd) :
    pd.is_sensitive = false
    ∧ encryptIfSensitive pd encResult lockOk = (pd.blob, false) := by
  cases decoded with
  | none => simp [process_image] at h
  | some img =>
    simp only [process_image] at h
    cases h
    exact ⟨rfl, rfl⟩

/-- Witness for C10 on a concrete decoded TIFF image. -/
theorem C10_witness :
    c10Pd.is_sensitive = false
    ∧ encryptIfSensitive c10Pd (Except.error "e") true = (c10Pd.blob, false) :=
  C10_image_never_encrypted (some c10Img) "public.tiff" c10Pd
    (Except.error "e") true rfl

end ClipVault
